import Mathlib

/-! # tscfix: cross-core TSC offset estimation and correction

A shallow embedding of `src/tscfix.cc` and the properties of its offset
estimator (`calibrator::analyze`), adaptive sampler (`calibrator::measure`)
and drift corrector (the per-core body of `main`).

Conventions of the embedding:

* `uint64_t` values are `Nat`s below `2 ^ 64`; every unsigned operation is
  written with its explicit reduction modulo `2 ^ 64`.
* `int64_t` values are `Int`s in `[-2 ^ 63, 2 ^ 63)`; conversions from
  `uint64_t` go through `toInt64` (two's complement).
* Signed arithmetic on `int64_t` (`-res.drift`, `res.drift - last`) is reduced
  into the `int64_t` range by `wrapInt64`.
* `std::vector::operator[]` outside the vector's size is undefined behaviour;
  the embedding makes every lookup explicit and returns `none` for it.
* The two sampling threads of a round and the thread affinity calls have no
  counterpart here: `analyze` is studied on the vectors a round leaves behind,
  `measure` on the results its rounds produce, `main` on the results `measure`
  returns.
-/

namespace Tscfix

/-! ## Machine arithmetic -/

/-- The constant `static const uint64_t max_latency = 160;`. -/
def max_latency : Nat := 160

/-- The constant `static const int64_t allowed_drift = 100;`. -/
def allowed_drift : Int := 100

/-- The value `std::numeric_limits<uint64_t>::max()`. -/
def uint64_max : Nat := 2 ^ 64 - 1

/-- Unsigned 64-bit addition `a + b`. -/
def add64 (a b : Nat) : Nat := (a + b) % 2 ^ 64

/-- Unsigned 64-bit subtraction `a - b` (wraps around below zero). -/
def sub64 (a b : Nat) : Nat := (a + (2 ^ 64 - b % 2 ^ 64)) % 2 ^ 64

/-- Conversion of a `uint64_t` to `int64_t` (two's complement). -/
def toInt64 (x : Nat) : Int := if x < 2 ^ 63 then (x : Int) else (x : Int) - 2 ^ 64

/-- Reduction of a mathematical integer into the `int64_t` range
(two's complement wrap-around of signed arithmetic). -/
def wrapInt64 (x : Int) : Int := (x + 2 ^ 63) % 2 ^ 64 - 2 ^ 63

/-! ## Data model -/

/-- The record `struct test { uint64_t seq1; uint64_t tsc; uint64_t seq2; };`. -/
structure test where
  seq1 : Nat
  tsc : Nat
  seq2 : Nat
  deriving DecidableEq

/-- The record `struct result { int64_t drift; uint64_t error; };`. -/
structure result where
  drift : Int
  error : Nat
  deriving DecidableEq

/-- The data members of `struct calibrator` that `analyze` reads: the
calibration series and the test series, as they stand once both threads of a
round have been joined. -/
structure calibrator where
  calibration : List Nat
  tests : List test
  deriving DecidableEq

/-! ## `calibrator::analyze` -/

/-- The running pair `(best_error, best_value)` of `analyze`. -/
structure Best where
  best_error : Nat
  best_value : Int
  deriving DecidableEq

/-- One pass through the body of the `for (auto&& e : tests)` loop of
`analyze`. `none` stands for a lookup outside the calibration vector. -/
def analyzeStep (calibration : List Nat) (b : Best) (e : test) : Option Best :=
  if e.seq1 = 0 then
    some b
  else
    match calibration[e.seq1 - 1]?, calibration[e.seq2]? with
    | some tsc1, some tsc2 =>
      let tsc := e.tsc
      let error := sub64 tsc2 tsc1
      let average := add64 tsc1 tsc2 / 2
      let value := toInt64 (sub64 tsc average)
      if error < b.best_error then
        some { best_error := error, best_value := value }
      else
        some b
    | _, _ => none

/-- The `for` loop of `analyze` over the remaining test samples. -/
def analyzeLoop (calibration : List Nat) : List test → Best → Option Best
  | [], b => some b
  | e :: es, b =>
    match analyzeStep calibration b e with
    | some b1 => analyzeLoop calibration es b1
    | none => none

/-- The function `result calibrator::analyze()`; `none` when some lookup is
out of bounds. -/
def analyze (c : calibrator) : Option result :=
  match analyzeLoop c.calibration c.tests
      { best_error := uint64_max, best_value := 0 } with
  | some b => some { drift := b.best_value, error := b.best_error }
  | none => none

/-- The indices at which `analyze` reads the calibration vector, in the order
of the reads. -/
def lookups : List test → List Nat
  | [] => []
  | e :: es => if e.seq1 = 0 then lookups es else (e.seq1 - 1) :: e.seq2 :: lookups es

/-! ## Specification-side vocabulary for `analyze` -/

/-- Lower end of the bracket of a test sample: `calibration[e.seq1 - 1]`. -/
def bracketLo (calibration : List Nat) (e : test) : Nat :=
  calibration.getD (e.seq1 - 1) 0

/-- Upper end of the bracket of a test sample: `calibration[e.seq2]`. -/
def bracketHi (calibration : List Nat) (e : test) : Nat :=
  calibration.getD e.seq2 0

/-- Bracket width of a test sample, as an unsigned 64-bit difference. -/
def bracketWidth (calibration : List Nat) (e : test) : Nat :=
  sub64 (bracketHi calibration e) (bracketLo calibration e)

/-- The `value` the loop body of `analyze` computes for a test sample (lines
105-106): the counter minus `average`, where `average` is obtained from the
unsigned 64-bit sum `tsc1 + tsc2`. -/
def loopValue (calibration : List Nat) (e : test) : Int :=
  toInt64 (sub64 e.tsc (add64 (bracketLo calibration e) (bracketHi calibration e) / 2))

/-- Midpoint of the bracket of a test sample: half the sum of its two ends,
the sum taken in the natural numbers. -/
def midpoint (calibration : List Nat) (e : test) : Nat :=
  (bracketLo calibration e + bracketHi calibration e) / 2

/-- Estimate of a test sample: its counter minus the bracket midpoint, as a
signed 64-bit value. -/
def estimate (calibration : List Nat) (e : test) : Int :=
  toInt64 (sub64 e.tsc (midpoint calibration e))

/-- Every lookup `analyze` performs on this round is inside the calibration
vector. -/
def InRange (c : calibrator) : Prop :=
  ∀ e ∈ c.tests, e.seq1 ≠ 0 →
    e.seq1 - 1 < c.calibration.length ∧ e.seq2 < c.calibration.length

instance (c : calibrator) : Decidable (InRange c) := by
  unfold InRange; infer_instance

/-- The loop body of `analyze` when both lookups succeed. -/
def pick (calibration : List Nat) (b : Best) (e : test) : Best :=
  if e.seq1 = 0 then b
  else if bracketWidth calibration e < b.best_error then
    { best_error := bracketWidth calibration e, best_value := loopValue calibration e }
  else b

/-! ## Concrete rounds -/

/-- Two usable samples: brackets `[100, 200]` (counter 160) and `[140, 150]`
(counter 147). -/
def scenario2 : calibrator :=
  { calibration := [100, 140, 150, 200], tests := [⟨1, 160, 3⟩, ⟨2, 147, 2⟩] }

/-- One usable sample whose bracket `[0, 2 ^ 64 - 1]` is as wide as an
unsigned 64-bit difference can be. -/
def widestBracket : calibrator :=
  { calibration := [0, 2 ^ 64 - 1], tests := [⟨1, 2 ^ 63, 1⟩] }

/-- One usable sample with the bracket `[2 ^ 63, 2 ^ 63 + 10]`, whose ends add
up to more than `2 ^ 64 - 1`, and counter `2 ^ 63 + 6`. -/
def highBracket : calibrator :=
  { calibration := [2 ^ 63, 2 ^ 63 + 10], tests := [⟨1, 2 ^ 63 + 6, 1⟩] }

/-- Scenario 1 of the specification: calibration series `[100, 110, 120, 130]`
and the single test sample `{seq1 = 2, tsc = 116, seq2 = 2}`. -/
def scenario1 : calibrator :=
  { calibration := [100, 110, 120, 130], tests := [⟨2, 116, 2⟩] }

/-- A zero-width bracket `[2 ^ 63, 2 ^ 63]` around a test sample whose counter
reads `2 ^ 63 + 6`. -/
def highCounters : calibrator :=
  { calibration := [2 ^ 63, 2 ^ 63], tests := [⟨1, 2 ^ 63 + 6, 1⟩] }

/-- A round of `n = 2` calibration readings whose second test sample was taken
after the reference thread had finished: it observed `seq = 2` on both
loads. -/
def probeAfterReference : calibrator :=
  { calibration := [100, 110], tests := [⟨1, 105, 1⟩, ⟨2, 115, 2⟩] }

/-! ## `calibrator::measure` -/

/-- The `while (true)` loop of `measure`, started with sample count `n`.
`round n` is what one pass produces before the test on `res.error`:
`reset(n)`, the two sampling threads, their join and `analyze()` (see `pass`);
it is `none` when that pass yields no `result`. The first argument bounds the number of
passes; `none` is returned when it is used up. -/
def measureLoop (round : Nat → Option result) : Nat → Nat → Option result
  | 0, _ => none
  | fuel + 1, n =>
    match round n with
    | none => none
    | some res =>
      if res.error ≤ max_latency then some res
      else measureLoop round fuel (n * 2 % 2 ^ 64)

/-- The function `result calibrator::measure(unsigned cpu)`: the loop started
at `uint64_t n = 10000`. -/
def measure (round : Nat → Option result) (fuel : Nat) : Option result :=
  measureLoop round fuel 10000

/-- Sample count of pass `k` (counting from `0`): `10000` doubled `k` times in
`uint64_t` arithmetic. -/
def sampleCount (k : Nat) : Nat := 10000 * 2 ^ k % 2 ^ 64

/-- The values of `max_size()` of the two vectors of a calibrator,
`std::vector<uint64_t>` and `std::vector<test>`. -/
structure VectorLimits where
  calibration_max_size : Nat
  tests_max_size : Nat

/-- The function `void calibrator::reset(uint64_t count)`, as far as it can
fail: `calibration.reserve(count)` and `tests.reserve(count)` throw
`std::length_error` when `count` exceeds the vector's `max_size()`. The value
is `true` when both calls return. -/
def reset (L : VectorLimits) (count : Nat) : Bool :=
  decide (count ≤ L.calibration_max_size) && decide (count ≤ L.tests_max_size)

/-- One pass of the loop of `measure` up to the test on `res.error`:
`reset(n)`, then the round proper (the two sampling threads, their join and
`analyze()`), whose outcome is `round n`. No result is produced when `reset`
throws. -/
def pass (L : VectorLimits) (round : Nat → Option result) (n : Nat) : Option result :=
  if reset L n = true then round n else none

/-- The limits of an implementation whose `max_size()` is
`PTRDIFF_MAX / sizeof(T)`, with 8-byte readings and 24-byte test samples. -/
def ptrdiffLimits : VectorLimits :=
  { calibration_max_size := (2 ^ 63 - 1) / 8, tests_max_size := (2 ^ 63 - 1) / 24 }

/-! ## Concrete round functions -/

/-- A round function that is too noisy at `10000` and `20000` samples and
good from `40000` samples on. -/
def thirdRound (n : Nat) : result :=
  if n < 40000 then { drift := 7, error := 500 } else { drift := 3, error := 20 }

/-- A round in which the probe thread saw `seq = 0` before every one of its
counter readings. -/
def earlyProbe : calibrator :=
  { calibration := [100], tests := [⟨0, 5, 0⟩, ⟨0, 6, 1⟩] }

/-! ## The drift corrector: `main`

`main` talks to two collaborators: `c.measure(cpu)`, whose result depends on
the hardware counters, and `adjust_tsc(cpu, delta)`, which writes `delta` to
the clock adjustment sink. Both are taken from an environment, whose state is
passed along explicitly; a run is described by the events it produces. The
`double` arithmetic of the PID controller is taken from a `Platform`. -/

/-- What the embedding needs of the C++ implementation: `double` arithmetic
and the value `std::abs` yields on the most negative `int64_t`, which the
language leaves undefined. -/
structure Platform where
  /-- The type `double`. -/
  Double : Type
  /-- The `double` denoted by a decimal literal such as `0.1`. -/
  lit : ℚ → Double
  /-- Conversion `int64_t → double`. -/
  ofInt64 : Int → Double
  /-- Addition of `double`s. -/
  add : Double → Double → Double
  /-- Multiplication of `double`s. -/
  mul : Double → Double → Double
  /-- Unary minus on `double`s. -/
  neg : Double → Double
  /-- Conversion `double → int64_t`. -/
  toInt64 : Double → Int
  /-- Value of `std::abs(INT64_MIN)`. -/
  absMin : Int

/-- The function `std::abs` on `int64_t`. -/
def abs64 (P : Platform) (d : Int) : Int :=
  if d = -2 ^ 63 then P.absMin else |d|

/-- The collaborators of `main`, over a state `σ` of the machine. -/
structure Env (σ : Type) where
  /-- The call `c.measure(cpu)`: the estimate returned and the state
  afterwards. -/
  measure : Nat → σ → result × σ
  /-- The call `adjust_tsc(cpu, delta)`: the state after `delta` has been
  written to the sink, or `none` when `/dev/tscadj` cannot be opened. -/
  adjust_tsc : Nat → Int → σ → Option σ

/-- Observable events of a run of `main`. -/
inductive Event where
  /-- The call `c.measure(cpu)` returned `res`. -/
  | measured (cpu : Nat) (res : result)
  /-- The call `adjust_tsc(cpu, delta)` was made. -/
  | command (cpu : Nat) (delta : Int)
  /-- The line `cpu <cpu> drift <drift> error <error>` was printed. -/
  | report (cpu : Nat) (drift : Int) (error : Nat)
  /-- The line `unable to open /dev/tscadj` was printed and `exit(1)` called. -/
  | sinkUnreachable
  deriving DecidableEq

/-- The text an event writes to `std::cout`, if any. -/
def Event.text : Event → Option String
  | .report cpu drift error =>
    some ("cpu " ++ toString cpu ++ " drift " ++ toString drift ++ " error "
      ++ toString error ++ "\n")
  | .sinkUnreachable => some "unable to open /dev/tscadj\n"
  | _ => none

/-- How a run ended. -/
inductive Status where
  /-- The code ran to its end (for the PID loop: it left through `break`). -/
  | finished
  /-- The process left through `exit(1)` in `adjust_tsc`. -/
  | exited
  /-- The PID loop was still going when the iteration bound was used up. -/
  | running
  deriving DecidableEq

/-- A run: its events in order, how it ended, and the state it left. -/
structure Run (σ : Type) where
  trace : List Event
  status : Status
  state : σ

/-- Put events in front of a run. -/
def Run.after {σ : Type} (evs : List Event) (r : Run σ) : Run σ :=
  { r with trace := evs ++ r.trace }

/-- The `while (true)` loop of the PID controller in `main`, with the locals
`sum` and `last`; the first argument bounds the number of iterations. -/
def pidLoop (P : Platform) {σ : Type} (env : Env σ) (cpu : Nat) :
    Nat → P.Double → Int → σ → Run σ
  | 0, _, _, s => { trace := [], status := .running, state := s }
  | fuel + 1, sum, last, s =>
    let kp := P.lit (1 / 10)
    let ki := P.lit (1 / 1000)
    let kd := P.lit (1 / 10)
    let res := (env.measure cpu s).1
    let s1 := (env.measure cpu s).2
    if abs64 P res.drift < allowed_drift ∧ res.drift ≥ 0 then
      { trace := [.measured cpu res], status := .finished, state := s1 }
    else
      let sum1 := P.add sum (P.ofInt64 res.drift)
      let diff := wrapInt64 (res.drift - last)
      let last1 := res.drift
      let cmd := P.add (P.add (P.mul kp (P.ofInt64 res.drift)) (P.mul ki sum1))
        (P.mul kd (P.ofInt64 diff))
      let delta := P.toInt64 (P.neg cmd)
      match env.adjust_tsc cpu delta s1 with
      | none =>
        { trace := [.measured cpu res, .command cpu delta, .sinkUnreachable],
          status := .exited, state := s1 }
      | some s2 =>
        (pidLoop P env cpu fuel sum1 last1 s2).after
          [.measured cpu res, .command cpu delta]

/-- The body of the `for` loop of `main` for one `cpu`. -/
def session (P : Platform) {σ : Type} (env : Env σ) (fix : Bool) (cpu fuel : Nat)
    (s : σ) : Run σ :=
  let res := (env.measure cpu s).1
  let s1 := (env.measure cpu s).2
  if fix then
    let delta := wrapInt64 (-res.drift)
    match env.adjust_tsc cpu delta s1 with
    | none =>
      { trace := [.measured cpu res, .command cpu delta, .sinkUnreachable],
        status := .exited, state := s1 }
    | some s2 =>
      (pidLoop P env cpu fuel (P.lit 0) 0 s2).after
        [.measured cpu res, .command cpu delta]
  else
    { trace := [.measured cpu res, .report cpu res.drift res.error],
      status := .finished, state := s1 }

/-- The `for` loop of `main` over the remaining target cores. -/
def mainLoop (P : Platform) {σ : Type} (env : Env σ) (fix : Bool) (fuel : Nat) :
    List Nat → σ → Run σ
  | [], s => { trace := [], status := .finished, state := s }
  | cpu :: cpus, s =>
    let r := session P env fix cpu fuel s
    match r.status with
    | .finished => (mainLoop P env fix fuel cpus r.state).after r.trace
    | _ => r

/-- The function `int main(int ac, char** av)`: `fix` is the `-f` flag and the
target cores are `1 .. hardware_concurrency - 1`, in increasing order. -/
def main (P : Platform) {σ : Type} (env : Env σ) (fix : Bool)
    (hardware_concurrency fuel : Nat) (s : σ) : Run σ :=
  mainLoop P env fix fuel (List.range' 1 (hardware_concurrency - 1)) s

/-- An instance of `Platform` with exact rational arithmetic in place of
`double`, truncation toward zero, and a wrapping `std::abs`. -/
def exactArith : Platform where
  Double := ℚ
  lit := fun q => q
  ofInt64 := fun d => (d : ℚ)
  add := fun a b => a + b
  mul := fun a b => a * b
  neg := fun a => -a
  toInt64 := fun a => wrapInt64 (Int.tdiv a.num a.den)
  absMin := -2 ^ 63

/-- Whether an event is a printed `cpu ... drift ... error ...` line. -/
def Event.isReport : Event → Bool
  | .report _ _ _ => true
  | _ => false

/-- Whether an event is a call of `adjust_tsc`. -/
def Event.isCommand : Event → Bool
  | .command _ _ => true
  | _ => false

/-- An environment whose target core always measures a drift of `100` and
whose adjustment sink cannot be opened. -/
def deadSink : Env Unit where
  measure := fun _ s => ({ drift := 100, error := 0 }, s)
  adjust_tsc := fun _ _ _ => none

/-- An environment whose target core always measures the most negative
drift and whose sink accepts every command. -/
def minDrift : Env Unit where
  measure := fun _ s => ({ drift := -2 ^ 63, error := 0 }, s)
  adjust_tsc := fun _ _ s => some s

/-- Modelled from the spec: the simulated target core of the control-loop
convergence property. The state is the correction applied so far, that is the
negated sum of the deltas sent to the sink; `measure` returns
`true_drift - applied_correction` with zero noise, and the sink always
accepts. -/
def simTarget (true_drift : Int) : Env Int where
  measure := fun _ applied => ({ drift := true_drift - applied, error := 0 }, applied)
  adjust_tsc := fun _ delta applied => some (applied - delta)

/-- The correction command of one iteration of the PID loop. -/
def pidDelta (P : Platform) (sum : P.Double) (last d : Int) : Int :=
  P.toInt64 (P.neg (P.add (P.add (P.mul (P.lit (1 / 10)) (P.ofInt64 d))
    (P.mul (P.lit (1 / 1000)) (P.add sum (P.ofInt64 d))))
    (P.mul (P.lit (1 / 10)) (P.ofInt64 (wrapInt64 (d - last))))))

/-- The events of read-only mode for the given cores and measurement
results: one measurement and one printed line per core. -/
def readOnlyEvents (cpus : List Nat) (results : List result) : List Event :=
  (List.zipWith (fun cpu r => [Event.measured cpu r, Event.report cpu r.drift r.error])
    cpus results).flatten

/-- The line `cpu <id> drift <drift> error <error>`. -/
def reportLine (cpu : Nat) (r : result) : String :=
  "cpu " ++ toString cpu ++ " drift " ++ toString r.drift ++ " error "
    ++ toString r.error ++ "\n"

/-- The results of measuring the given cores one after the other, each
measurement starting from the state the previous one left. -/
def measurements {σ : Type} (env : Env σ) : List Nat → σ → List result
  | [], _ => []
  | cpu :: cpus, s => (env.measure cpu s).1 :: measurements env cpus (env.measure cpu s).2

/-- The state after measuring the given cores one after the other, once each,
with no other call on the environment. -/
def stateAfter {σ : Type} (env : Env σ) : List Nat → σ → σ
  | [], s => s
  | cpu :: cpus, s => stateAfter env cpus (env.measure cpu s).2

/-- A machine whose state counts the measurements made so far and jumps by
`100` with every command to the sink: measuring core `cpu` in state `s`
returns drift `10 * cpu + s` and error `12`. -/
def countingCores : Env Nat where
  measure := fun cpu s => ({ drift := ((10 * cpu + s : Nat) : Int), error := 12 }, s + 1)
  adjust_tsc := fun _ _ s => some (s + 100)

/-! # Theorems -/

/-! ## Arithmetic facts -/

theorem sub64_lt (a b : Nat) : sub64 a b < 2 ^ 64 := by
  unfold sub64; omega

theorem sub64_le_max (a b : Nat) : sub64 a b ≤ uint64_max := by
  unfold sub64 uint64_max; omega

theorem sub64_self (a : Nat) : sub64 a a = 0 := by
  unfold sub64; omega

theorem add64_self_half (a : Nat) (h : a < 2 ^ 63) : add64 a a / 2 = a := by
  unfold add64; omega

/-! ## The loop of `analyze` -/

theorem analyzeStep_eq_pick (cal : List Nat) (b : Best) (e : test)
    (h : e.seq1 ≠ 0 → e.seq1 - 1 < cal.length ∧ e.seq2 < cal.length) :
    analyzeStep cal b e = some (pick cal b e) := by
  unfold analyzeStep pick
  by_cases h0 : e.seq1 = 0
  · simp [h0]
  · obtain ⟨h1, h2⟩ := h h0
    simp only [h0, if_false, bracketWidth, loopValue, bracketLo, bracketHi]
    rw [List.getElem?_eq_getElem h1, List.getElem?_eq_getElem h2]
    simp only [List.getD_eq_getElem?_getD, List.getElem?_eq_getElem h1,
      List.getElem?_eq_getElem h2, Option.getD_some]
    split <;> rfl

theorem analyzeLoop_eq_foldl (cal : List Nat) (tests : List test) (b : Best)
    (h : ∀ e ∈ tests, e.seq1 ≠ 0 → e.seq1 - 1 < cal.length ∧ e.seq2 < cal.length) :
    analyzeLoop cal tests b = some (tests.foldl (pick cal) b) := by
  induction tests generalizing b with
  | nil => rfl
  | cons e es ih =>
    simp only [analyzeLoop, List.foldl_cons]
    rw [analyzeStep_eq_pick cal b e (h e (List.mem_cons_self _ _))]
    exact ih _ (fun x hx => h x (List.mem_cons_of_mem _ hx))

theorem pick_le (cal : List Nat) (b : Best) (e : test) :
    (pick cal b e).best_error ≤ b.best_error := by
  unfold pick
  split
  · exact le_refl _
  · split
    · exact Nat.le_of_lt (by assumption)
    · exact le_refl _

theorem pick_le_width (cal : List Nat) (b : Best) (e : test) (h : e.seq1 ≠ 0) :
    (pick cal b e).best_error ≤ bracketWidth cal e := by
  unfold pick
  rw [if_neg h]
  split
  · exact le_refl _
  · omega

/-- Invariant of the selection loop: either no sample improved on the
starting pair, or the outcome is the pair of the earliest sample that is
strictly tighter than everything before it and no wider than anything
after it. -/
theorem foldl_pick_spec (cal : List Nat) (tests : List test) (b : Best) :
    ((tests.foldl (pick cal) b = b ∧
        ∀ e ∈ tests, e.seq1 ≠ 0 → b.best_error ≤ bracketWidth cal e) ∨
      ∃ pre e post, tests = pre ++ e :: post ∧ e.seq1 ≠ 0 ∧
        bracketWidth cal e < b.best_error ∧
        tests.foldl (pick cal) b =
          { best_error := bracketWidth cal e, best_value := loopValue cal e } ∧
        (∀ x ∈ pre, x.seq1 ≠ 0 → bracketWidth cal e < bracketWidth cal x) ∧
        (∀ x ∈ post, x.seq1 ≠ 0 → bracketWidth cal e ≤ bracketWidth cal x)) := by
  induction tests generalizing b with
  | nil => left; simp
  | cons e0 es ih =>
    rw [List.foldl_cons]
    rcases ih (pick cal b e0) with ⟨heq, hall⟩ | ⟨pre, e, post, hsplit, hu, hlt, heq, hpre, hpost⟩
    · by_cases hsel : e0.seq1 ≠ 0 ∧ bracketWidth cal e0 < b.best_error
      · right
        have hp : pick cal b e0 =
            { best_error := bracketWidth cal e0, best_value := loopValue cal e0 } := by
          unfold pick; rw [if_neg hsel.1, if_pos hsel.2]
        refine ⟨[], e0, es, rfl, hsel.1, hsel.2, ?_, ?_, ?_⟩
        · rw [heq, hp]
        · intro x hx; simp at hx
        · intro x hx hxu
          have := hall x hx hxu
          rw [hp] at this
          exact this
      · left
        have hp : pick cal b e0 = b := by
          unfold pick
          by_cases h0 : e0.seq1 = 0
          · rw [if_pos h0]
          · rw [if_neg h0, if_neg (fun hlt => hsel ⟨h0, hlt⟩)]
        refine ⟨by rw [heq, hp], ?_⟩
        intro x hx hxu
        rcases List.mem_cons.mp hx with rfl | hx
        · have : ¬ bracketWidth cal x < b.best_error := fun hlt => hsel ⟨hxu, hlt⟩
          omega
        · have := hall x hx hxu
          rw [hp] at this
          exact this
    · right
      refine ⟨e0 :: pre, e, post, by rw [hsplit]; rfl, hu, ?_, heq, ?_, hpost⟩
      · exact lt_of_lt_of_le hlt (pick_le cal b e0)
      · intro x hx hxu
        rcases List.mem_cons.mp hx with rfl | hx
        · exact lt_of_lt_of_le hlt (pick_le_width cal b x hxu)
        · exact hpre x hx hxu

/-- Samples with `seq1 = 0` are skipped by the loop. -/
theorem analyzeLoop_filter (cal : List Nat) (tests : List test) (b : Best) :
    analyzeLoop cal (tests.filter (fun e => decide (e.seq1 ≠ 0))) b =
      analyzeLoop cal tests b := by
  induction tests generalizing b with
  | nil => rfl
  | cons e es ih =>
    by_cases h0 : e.seq1 = 0
    · have hs : analyzeStep cal b e = some b := by unfold analyzeStep; rw [if_pos h0]
      rw [List.filter_cons_of_neg (by simpa using h0)]
      simp only [analyzeLoop, hs]
      exact ih b
    · rw [List.filter_cons_of_pos (by simpa using h0)]
      simp only [analyzeLoop]
      cases analyzeStep cal b e with
      | none => rfl
      | some b1 => exact ih b1

/-! ## Minimum-width selection (C1) -/

theorem loopValue_eq_estimate (cal : List Nat) (e : test)
    (h : bracketLo cal e + bracketHi cal e < 2 ^ 64) :
    loopValue cal e = estimate cal e := by
  unfold loopValue estimate midpoint add64
  rw [Nat.mod_eq_of_lt h]

/-- C1 as stated fails, at two rounds whose lookups are in range and whose
only sample is usable. On `widestBracket` the bracket width is `2 ^ 64 - 1`
and the estimate is `1`, yet `analyze` returns drift `0`. On `highBracket` the
bracket width is `10` and the estimate is `1` (counter `2 ^ 63 + 6`, midpoint
`2 ^ 63 + 5`), yet `analyze` returns drift `1 - 2 ^ 63`. -/
theorem analyze_drift_differs_from_estimate :
    (InRange widestBracket ∧ (∃ e ∈ widestBracket.tests, e.seq1 ≠ 0) ∧
      analyze widestBracket = some { drift := 0, error := 2 ^ 64 - 1 } ∧
      (∀ e ∈ widestBracket.tests,
        bracketWidth widestBracket.calibration e = 2 ^ 64 - 1 ∧
        estimate widestBracket.calibration e = 1)) ∧
    (InRange highBracket ∧ (∃ e ∈ highBracket.tests, e.seq1 ≠ 0) ∧
      analyze highBracket = some { drift := 1 - 2 ^ 63, error := 10 } ∧
      (∀ e ∈ highBracket.tests,
        bracketWidth highBracket.calibration e = 10 ∧
        midpoint highBracket.calibration e = 2 ^ 63 + 5 ∧
        estimate highBracket.calibration e = 1)) := by
  decide

/-- The selection performed by `analyze` on a round whose lookups are in
range and which has a usable sample. -/
theorem analyze_selects (c : calibrator) (hr : InRange c)
    (hu : ∃ e ∈ c.tests, e.seq1 ≠ 0) :
    ∃ r, analyze c = some r ∧
      (∀ e ∈ c.tests, e.seq1 ≠ 0 → r.error ≤ bracketWidth c.calibration e) ∧
      (∃ e ∈ c.tests, e.seq1 ≠ 0 ∧ r.error = bracketWidth c.calibration e) ∧
      (r.error < 2 ^ 64 - 1 →
        ∃ pre e post, c.tests = pre ++ e :: post ∧ e.seq1 ≠ 0 ∧
          r.error = bracketWidth c.calibration e ∧
          r.drift = loopValue c.calibration e ∧
          ∀ x ∈ pre, x.seq1 ≠ 0 → r.error < bracketWidth c.calibration x) ∧
      analyze { c with tests := c.tests.filter (fun e => decide (e.seq1 ≠ 0)) } =
        some r := by
  have hloop := analyzeLoop_eq_foldl c.calibration c.tests
    { best_error := uint64_max, best_value := 0 } hr
  have han : analyze c = some
      { drift := (c.tests.foldl (pick c.calibration)
          { best_error := uint64_max, best_value := 0 }).best_value,
        error := (c.tests.foldl (pick c.calibration)
          { best_error := uint64_max, best_value := 0 }).best_error } := by
    unfold analyze; rw [hloop]
  refine ⟨_, han, ?_⟩
  rcases foldl_pick_spec c.calibration c.tests
      { best_error := uint64_max, best_value := 0 } with
    ⟨heq, hall⟩ | ⟨pre, e, post, hsplit, hue, hlt, heq, hpre, hpost⟩
  · rw [heq]
    refine ⟨hall, ?_, ?_, ?_⟩
    · obtain ⟨e, he, hne⟩ := hu
      refine ⟨e, he, hne, ?_⟩
      have h1 := hall e he hne
      have h2 : bracketWidth c.calibration e ≤ uint64_max := sub64_le_max _ _
      exact Nat.le_antisymm h1 h2
    · intro hlt
      exact absurd hlt (by simp [uint64_max])
    · unfold analyze
      simp only
      rw [analyzeLoop_filter, hloop, heq]
  · rw [heq]
    have hmem : e ∈ c.tests := by rw [hsplit]; simp
    refine ⟨?_, ⟨e, hmem, hue, rfl⟩, ?_, ?_⟩
    · intro x hx hxu
      rw [hsplit] at hx
      rcases List.mem_append.mp hx with hx | hx
      · exact Nat.le_of_lt (hpre x hx hxu)
      · rcases List.mem_cons.mp hx with rfl | hx
        · exact le_refl _
        · exact hpost x hx hxu
    · intro _
      exact ⟨pre, e, post, hsplit, hue, rfl, rfl, hpre⟩
    · unfold analyze
      simp only
      rw [analyzeLoop_filter, hloop, heq]

/-- C1 (amended): on a round whose lookups are in range and which has a
usable sample, `analyze` returns an estimate whose error is the minimum
bracket width over the usable samples. When that minimum is below
`2 ^ 64 - 1`, the drift comes from the earliest usable sample attaining the
minimum (every usable sample before it is strictly wider), and it is that
sample's estimate, counter minus bracket midpoint, whenever the two ends of
its bracket add up to less than `2 ^ 64`. The result is the same as on the
round with the samples of `seq1 = 0` removed. -/
theorem analyze_min_width (c : calibrator) (hr : InRange c)
    (hu : ∃ e ∈ c.tests, e.seq1 ≠ 0) :
    ∃ r, analyze c = some r ∧
      (∀ e ∈ c.tests, e.seq1 ≠ 0 → r.error ≤ bracketWidth c.calibration e) ∧
      (∃ e ∈ c.tests, e.seq1 ≠ 0 ∧ r.error = bracketWidth c.calibration e) ∧
      (r.error < 2 ^ 64 - 1 →
        ∃ pre e post, c.tests = pre ++ e :: post ∧ e.seq1 ≠ 0 ∧
          r.error = bracketWidth c.calibration e ∧
          (∀ x ∈ pre, x.seq1 ≠ 0 → r.error < bracketWidth c.calibration x) ∧
          (bracketLo c.calibration e + bracketHi c.calibration e < 2 ^ 64 →
            r.drift = estimate c.calibration e)) ∧
      analyze { c with tests := c.tests.filter (fun e => decide (e.seq1 ≠ 0)) } =
        some r := by
  obtain ⟨r, han, hle, hatt, hdrift, hfilter⟩ := analyze_selects c hr hu
  refine ⟨r, han, hle, hatt, ?_, hfilter⟩
  intro hlt
  obtain ⟨pre, e, post, hsplit, hue, hw, hd, hpre⟩ := hdrift hlt
  exact ⟨pre, e, post, hsplit, hue, hw, hpre,
    fun hsum => hd.trans (loopValue_eq_estimate c.calibration e hsum)⟩

/-- Scenario 2 of the specification as an instance of the selection law: the
lookups are in range, a usable sample exists, and the estimate returned has
error `10` and the second sample's estimate, `2`. -/
theorem analyze_min_width_scenario2 :
    InRange scenario2 ∧ (∃ e ∈ scenario2.tests, e.seq1 ≠ 0) ∧
      analyze scenario2 = some { drift := 2, error := 10 } ∧
      bracketWidth scenario2.calibration ⟨1, 160, 3⟩ = 100 ∧
      bracketWidth scenario2.calibration ⟨2, 147, 2⟩ = 10 ∧
      midpoint scenario2.calibration ⟨2, 147, 2⟩ = 145 ∧
      estimate scenario2.calibration ⟨2, 147, 2⟩ = 2 ∧
      ∃ r, analyze scenario2 = some r ∧
        (∀ e ∈ scenario2.tests, e.seq1 ≠ 0 →
          r.error ≤ bracketWidth scenario2.calibration e) :=
  ⟨by decide, by decide, by decide, by decide, by decide, by decide, by decide,
    (analyze_min_width scenario2 (by decide) (by decide)).imp
      (fun _ h => ⟨h.1, h.2.1⟩)⟩

/-! ## End-to-end scenario 1 (C2) -/

/-- C2 as stated fails: on scenario 1 `analyze` does not return error `0` and
drift `6`, and the upper end of the bracket it reads is not `110`. -/
theorem analyze_scenario1_not_zero_width :
    analyze scenario1 ≠ some { drift := 6, error := 0 } ∧
      scenario1.calibration[(⟨2, 116, 2⟩ : test).seq2]? ≠ some 110 := by
  decide

/-- C2 (amended): on scenario 1 `analyze` reads `calibration[1] = 110` and
`calibration[2] = 120`, so the bracket is `[110, 120]`, and it returns
error `10` and drift `116 - 115 = 1`. -/
theorem analyze_scenario1 :
    scenario1.calibration[(⟨2, 116, 2⟩ : test).seq1 - 1]? = some 110 ∧
      scenario1.calibration[(⟨2, 116, 2⟩ : test).seq2]? = some 120 ∧
      lookups scenario1.tests = [1, 2] ∧
      analyze scenario1 = some { drift := 1, error := 10 } := by
  decide

/-! ## Bracket midpoint law (C3) -/

/-- C3 at `highCounters`: the lookups are in range, the only sample is usable
and has `tsc1 = tsc2 = 2 ^ 63`, and `counter - tsc1` is `6` as a signed 64-bit
value; `analyze` returns error `0` but drift `6 - 2 ^ 63`, because
`tsc1 + tsc2` wraps around to `0` before it is halved. -/
theorem analyze_highCounters :
    InRange highCounters ∧
      (∀ e ∈ highCounters.tests, e.seq1 ≠ 0 ∧
        bracketLo highCounters.calibration e = 2 ^ 63 ∧
        bracketHi highCounters.calibration e = 2 ^ 63 ∧
        add64 (bracketLo highCounters.calibration e)
          (bracketHi highCounters.calibration e) / 2 = 0 ∧
        toInt64 (sub64 e.tsc (bracketLo highCounters.calibration e)) = 6) ∧
      analyze highCounters = some { drift := 6 - 2 ^ 63, error := 0 } := by
  decide

/-- Where the midpoint computation does not wrap, the law holds: the value
computed for a sample whose bracket ends coincide below `2 ^ 63` is
`counter - tsc1` as a signed 64-bit value. -/
theorem loopValue_zero_width (cal : List Nat) (e : test)
    (heq : bracketLo cal e = bracketHi cal e) (hlo : bracketLo cal e < 2 ^ 63) :
    bracketWidth cal e = 0 ∧
      loopValue cal e = toInt64 (sub64 e.tsc (bracketLo cal e)) := by
  unfold bracketWidth loopValue
  rw [← heq, sub64_self, add64_self_half _ hlo]
  exact ⟨rfl, rfl⟩

/-- The midpoint law below `2 ^ 63`: when the lookups are in range, every
calibration reading is below `2 ^ 63` and some usable sample has
`tsc1 = tsc2`, `analyze` returns error `0` and the drift `counter - tsc1` of
the first usable sample of zero bracket width. -/
theorem analyze_zero_width_low (c : calibrator) (hr : InRange c)
    (hsmall : ∀ v ∈ c.calibration, v < 2 ^ 63)
    (hz : ∃ e ∈ c.tests, e.seq1 ≠ 0 ∧ bracketLo c.calibration e = bracketHi c.calibration e) :
    ∃ pre e post, c.tests = pre ++ e :: post ∧ e.seq1 ≠ 0 ∧
      bracketLo c.calibration e = bracketHi c.calibration e ∧
      (∀ x ∈ pre, x.seq1 ≠ 0 → bracketLo c.calibration x ≠ bracketHi c.calibration x) ∧
      analyze c = some
        { drift := toInt64 (sub64 e.tsc (bracketLo c.calibration e)), error := 0 } := by
  have hlo : ∀ x ∈ c.tests, x.seq1 ≠ 0 → bracketLo c.calibration x < 2 ^ 63 := by
    intro x hx hxu
    have h1 := (hr x hx hxu).1
    unfold bracketLo
    rw [List.getD_eq_getElem?_getD, List.getElem?_eq_getElem h1, Option.getD_some]
    exact hsmall _ (List.getElem_mem _)
  have hhi : ∀ x ∈ c.tests, x.seq1 ≠ 0 → bracketHi c.calibration x < 2 ^ 63 := by
    intro x hx hxu
    have h2 := (hr x hx hxu).2
    unfold bracketHi
    rw [List.getD_eq_getElem?_getD, List.getElem?_eq_getElem h2, Option.getD_some]
    exact hsmall _ (List.getElem_mem _)
  obtain ⟨z, hzmem, hzu, hzeq⟩ := hz
  have hzw : bracketWidth c.calibration z = 0 :=
    (loopValue_zero_width c.calibration z hzeq (hlo z hzmem hzu)).1
  obtain ⟨r, han, hle, _, hdrift, _⟩ := analyze_selects c hr ⟨z, hzmem, hzu⟩
  have herr : r.error = 0 := by
    have := hle z hzmem hzu
    omega
  obtain ⟨pre, e, post, hsplit, hue, hw, hd, hpre⟩ := hdrift (by omega)
  have hemem : e ∈ c.tests := by rw [hsplit]; simp
  have heq : bracketLo c.calibration e = bracketHi c.calibration e := by
    have h1 := hlo e hemem hue
    have h2 := hhi e hemem hue
    have h3 : bracketWidth c.calibration e = 0 := by omega
    unfold bracketWidth sub64 at h3
    omega
  refine ⟨pre, e, post, hsplit, hue, heq, ?_, ?_⟩
  · intro x hx hxu hxeq
    have hxmem : x ∈ c.tests := by rw [hsplit]; simp [hx]
    have h1 := hpre x hx hxu
    have h2 := (loopValue_zero_width c.calibration x hxeq (hlo x hxmem hxu)).1
    omega
  · rw [han]
    have h2 := (loopValue_zero_width c.calibration e heq (hlo e hemem hue)).2
    cases r with
    | mk d er =>
      simp only at herr hd
      rw [herr, hd, h2]

/-! ## Index safety (C9) -/

theorem inRange_iff_lookups (c : calibrator) :
    InRange c ↔ ∀ i ∈ lookups c.tests, i < c.calibration.length := by
  unfold InRange
  cases c with
  | mk cal tests =>
    simp only
    induction tests with
    | nil => simp [lookups]
    | cons e es ih =>
      by_cases h0 : e.seq1 = 0
      · simp [lookups, h0, ih]
      · simp [lookups, h0, ih, and_assoc]

theorem analyzeLoop_isSome_iff (cal : List Nat) (tests : List test) (b : Best) :
    (analyzeLoop cal tests b).isSome = true ↔
      ∀ e ∈ tests, e.seq1 ≠ 0 → e.seq1 - 1 < cal.length ∧ e.seq2 < cal.length := by
  constructor
  · intro h
    induction tests generalizing b with
    | nil => intro e he; simp at he
    | cons e0 es ih =>
      simp only [analyzeLoop] at h
      have hstep : ∃ b1, analyzeStep cal b e0 = some b1 := by
        cases hs : analyzeStep cal b e0 with
        | none => rw [hs] at h; simp at h
        | some b1 => exact ⟨b1, rfl⟩
      obtain ⟨b1, hb1⟩ := hstep
      rw [hb1] at h
      intro e he hu
      rcases List.mem_cons.mp he with rfl | he
      · unfold analyzeStep at hb1
        rw [if_neg hu] at hb1
        by_cases h1 : e.seq1 - 1 < cal.length
        · by_cases h2 : e.seq2 < cal.length
          · exact ⟨h1, h2⟩
          · rw [List.getElem?_eq_getElem h1,
              List.getElem?_eq_none (by omega : cal.length ≤ e.seq2)] at hb1
            simp at hb1
        · rw [List.getElem?_eq_none (by omega : cal.length ≤ e.seq1 - 1)] at hb1
          simp at hb1
      · exact ih b1 h e he hu
  · intro h
    rw [analyzeLoop_eq_foldl cal tests b h]
    rfl

/-- The calibrator `analyze` returns a result exactly when every lookup it
performs is inside the calibration vector. -/
theorem analyze_isSome_iff (c : calibrator) :
    (analyze c).isSome = true ↔ ∀ i ∈ lookups c.tests, i < c.calibration.length := by
  rw [← inRange_iff_lookups]
  unfold InRange
  rw [← analyzeLoop_isSome_iff c.calibration c.tests
    { best_error := uint64_max, best_value := 0 }]
  unfold analyze
  cases analyzeLoop c.calibration c.tests { best_error := uint64_max, best_value := 0 } <;> rfl

/-- C9 at `probeAfterReference`: the calibration series has `n = 2 ≥ 1`
entries and every test sample satisfies `seq1 ≤ seq2 ≤ n`, yet `analyze`
reads index `2 = n`, outside the bounds `0 .. n - 1`. -/
theorem analyze_probeAfterReference_out_of_bounds :
    1 ≤ probeAfterReference.calibration.length ∧
      (∀ e ∈ probeAfterReference.tests,
        e.seq1 ≤ e.seq2 ∧ e.seq2 ≤ probeAfterReference.calibration.length) ∧
      lookups probeAfterReference.tests = [0, 1, 1, 2] ∧
      ¬ (∀ i ∈ lookups probeAfterReference.tests,
          i < probeAfterReference.calibration.length) ∧
      analyze probeAfterReference = none := by
  decide

/-- The lookups are in bounds when every usable sample has
`seq1 ≤ seq2 < n`. -/
theorem lookups_in_bounds_of_lt (c : calibrator)
    (h : ∀ e ∈ c.tests, e.seq1 ≤ e.seq2 ∧ e.seq2 < c.calibration.length) :
    ∀ i ∈ lookups c.tests, i < c.calibration.length := by
  rw [← inRange_iff_lookups]
  intro e he _
  have := h e he
  omega

theorem lookups_eq_nil (tests : List test) (h : ∀ e ∈ tests, e.seq1 = 0) :
    lookups tests = [] := by
  induction tests with
  | nil => rfl
  | cons e es ih =>
    have h0 : e.seq1 = 0 := h e (List.mem_cons_self _ _)
    simp only [lookups, h0, if_true]
    exact ih (fun x hx => h x (List.mem_cons_of_mem _ hx))

theorem analyzeLoop_unusable (cal : List Nat) (tests : List test) (b : Best)
    (h : ∀ e ∈ tests, e.seq1 = 0) : analyzeLoop cal tests b = some b := by
  induction tests with
  | nil => rfl
  | cons e es ih =>
    have h0 : e.seq1 = 0 := h e (List.mem_cons_self _ _)
    have hs : analyzeStep cal b e = some b := by unfold analyzeStep; rw [if_pos h0]
    simp only [analyzeLoop, hs]
    exact ih (fun x hx => h x (List.mem_cons_of_mem _ hx))

/-! ## Adaptive sampling (C4) -/

theorem sampleCount_succ (k : Nat) :
    sampleCount (k + 1) = sampleCount k * 2 % 2 ^ 64 := by
  unfold sampleCount
  rw [pow_succ, ← Nat.mul_assoc, Nat.mod_mul_mod]

theorem measureLoop_returns (round : Nat → Option result) (k : Nat) :
    ∀ (i : Nat) (r : result), round (sampleCount (i + k)) = some r →
      r.error ≤ max_latency →
      (∀ j < k, ∃ rj, round (sampleCount (i + j)) = some rj ∧ max_latency < rj.error) →
      ∀ fuel, k < fuel → measureLoop round fuel (sampleCount i) = some r := by
  induction k with
  | zero =>
    intro i r hr hgood _ fuel hf
    obtain ⟨f, rfl⟩ : ∃ f, fuel = f + 1 := ⟨fuel - 1, by omega⟩
    simp only [measureLoop]
    rw [Nat.add_zero] at hr
    rw [hr]
    simp [hgood]
  | succ k ih =>
    intro i r hr hgood hbad fuel hf
    obtain ⟨f, rfl⟩ : ∃ f, fuel = f + 1 := ⟨fuel - 1, by omega⟩
    obtain ⟨r0, hr0, hbad0⟩ := hbad 0 (Nat.succ_pos k)
    rw [Nat.add_zero] at hr0
    simp only [measureLoop]
    rw [hr0]
    simp only [Nat.not_le.mpr hbad0, if_false]
    rw [← sampleCount_succ]
    apply ih (i + 1) r
    · rw [show i + 1 + k = i + (k + 1) by omega]; exact hr
    · exact hgood
    · intro j hj
      have := hbad (j + 1) (by omega)
      rw [show i + 1 + j = i + (j + 1) by omega]
      exact this
    · omega

theorem measureLoop_sound (round : Nat → Option result) (fuel : Nat) :
    ∀ (i : Nat) (r : result), measureLoop round fuel (sampleCount i) = some r →
      ∃ k, k < fuel ∧ round (sampleCount (i + k)) = some r ∧ r.error ≤ max_latency ∧
        ∀ j < k, ∃ rj, round (sampleCount (i + j)) = some rj ∧ max_latency < rj.error := by
  induction fuel with
  | zero => intro i r h; simp [measureLoop] at h
  | succ f ih =>
    intro i r h
    simp only [measureLoop] at h
    cases hr0 : round (sampleCount i) with
    | none => rw [hr0] at h; simp at h
    | some r0 =>
      rw [hr0] at h
      by_cases hgood : r0.error ≤ max_latency
      · simp only [hgood, if_true, Option.some.injEq] at h
        subst h
        exact ⟨0, Nat.succ_pos f, by rw [Nat.add_zero]; exact hr0, hgood,
          fun j hj => absurd hj (Nat.not_lt_zero j)⟩
      · simp only [hgood, if_false] at h
        rw [← sampleCount_succ] at h
        obtain ⟨k, hk, hrk, hgk, hbad⟩ := ih (i + 1) r h
        refine ⟨k + 1, by omega, ?_, hgk, ?_⟩
        · rw [show i + (k + 1) = i + 1 + k by omega]; exact hrk
        · intro j hj
          cases j with
          | zero => exact ⟨r0, by rw [Nat.add_zero]; exact hr0, by omega⟩
          | succ j =>
            have := hbad j (by omega)
            rw [show i + (j + 1) = i + 1 + j by omega]
            exact this

theorem sampleCount_zero : sampleCount 0 = 10000 := by
  unfold sampleCount; norm_num

theorem pass_eq_some (L : VectorLimits) (round : Nat → Option result) (n : Nat)
    (r : result) (h : pass L round n = some r) :
    reset L n = true ∧ round n = some r := by
  unfold pass at h
  by_cases hr : reset L n = true
  · rw [if_pos hr] at h; exact ⟨hr, h⟩
  · rw [if_neg hr] at h; simp at h

theorem reset_le (L : VectorLimits) (n : Nat) (h : reset L n = true) :
    n ≤ L.tests_max_size := by
  unfold reset at h
  simp only [Bool.and_eq_true, decide_eq_true_eq] at h
  exact h.2

/-- While `reset` has succeeded in every earlier pass, the sample count has
not wrapped around. -/
theorem sampleCount_of_reset (L : VectorLimits) (hL : L.tests_max_size * 24 < 2 ^ 64)
    (k : Nat) (h : ∀ j < k, reset L (sampleCount j) = true) :
    sampleCount k = 10000 * 2 ^ k := by
  induction k with
  | zero => unfold sampleCount; norm_num
  | succ k ih =>
    have hk := ih (fun j hj => h j (by omega))
    have hle := reset_le L _ (h k (Nat.lt_succ_self k))
    rw [hk] at hle
    rw [sampleCount_succ, hk]
    have hp : 10000 * 2 ^ (k + 1) = 10000 * 2 ^ k * 2 := by
      rw [pow_succ, Nat.mul_assoc]
    rw [hp]
    apply Nat.mod_eq_of_lt
    omega

theorem sampleCount_of_le (L : VectorLimits) (hL : L.tests_max_size * 24 < 2 ^ 64)
    (k : Nat) (h : reset L (10000 * 2 ^ k) = true) :
    sampleCount k = 10000 * 2 ^ k := by
  have hle := reset_le L _ h
  unfold sampleCount
  apply Nat.mod_eq_of_lt
  omega

/-- C4: with `reset(n)` followed by a measurement round that is a function
of the sample count, `measure` runs its passes with the sample counts
`10000, 20000, 40000, ...`, that is `10000 * 2 ^ k` for pass `k`. If pass `k`
yields an estimate with error at most `160` and every earlier pass yielded an
estimate with error above `160`, `measure` returns the estimate of pass `k`
as soon as it is allowed more than `k` passes; and whatever `measure` returns
is the estimate of such a first pass: its error is at most `160` and every
earlier pass of the sequence had an error above `160`. The sample count never
wraps around, because `reset` throws before it could. -/
theorem measure_first_within_latency (L : VectorLimits)
    (hL : L.tests_max_size * 24 < 2 ^ 64) (round : Nat → Option result) :
    (∀ k r, pass L round (10000 * 2 ^ k) = some r → r.error ≤ max_latency →
      (∀ j < k, ∃ rj, pass L round (10000 * 2 ^ j) = some rj ∧ max_latency < rj.error) →
      ∀ fuel, k < fuel → measure (pass L round) fuel = some r) ∧
    (∀ fuel r, measure (pass L round) fuel = some r →
      r.error ≤ max_latency ∧
      ∃ k, k < fuel ∧ pass L round (10000 * 2 ^ k) = some r ∧
        ∀ j < k, ∃ rj, pass L round (10000 * 2 ^ j) = some rj ∧ max_latency < rj.error) := by
  constructor
  · intro k r hr hgood hbad fuel hf
    have hk : sampleCount k = 10000 * 2 ^ k :=
      sampleCount_of_le L hL k (pass_eq_some L round _ r hr).1
    have h := measureLoop_returns (pass L round) k 0 r
      (by rw [Nat.zero_add, hk]; exact hr) hgood
      (fun j hj => by
        obtain ⟨rj, hrj, hlt⟩ := hbad j hj
        have hj2 : sampleCount j = 10000 * 2 ^ j :=
          sampleCount_of_le L hL j (pass_eq_some L round _ rj hrj).1
        exact ⟨rj, by rw [Nat.zero_add, hj2]; exact hrj, hlt⟩) fuel hf
    rw [sampleCount_zero] at h
    exact h
  · intro fuel r h
    unfold measure at h
    rw [← sampleCount_zero] at h
    obtain ⟨k, hk, hrk, hgood, hbad⟩ := measureLoop_sound (pass L round) fuel 0 r h
    have hreset : ∀ j < k, reset L (sampleCount j) = true := by
      intro j hj
      obtain ⟨rj, hrj, _⟩ := hbad j hj
      rw [Nat.zero_add] at hrj
      exact (pass_eq_some L round _ rj hrj).1
    have hcount : ∀ j, j ≤ k → sampleCount j = 10000 * 2 ^ j := by
      intro j hj
      exact sampleCount_of_reset L hL j (fun i hi => hreset i (by omega))
    refine ⟨hgood, k, hk, ?_, ?_⟩
    · rw [Nat.zero_add, hcount k (le_refl k)] at hrk
      exact hrk
    · intro j hj
      obtain ⟨rj, hrj, hlt⟩ := hbad j hj
      rw [Nat.zero_add, hcount j (by omega)] at hrj
      exact ⟨rj, hrj, hlt⟩

/-- C4 at `thirdRound` with the limits `ptrdiffLimits`: the passes with
`10000` and `20000` samples are rejected and the estimate of the pass with
`40000` samples is returned. -/
theorem measure_first_within_latency_thirdRound :
    ptrdiffLimits.tests_max_size * 24 < 2 ^ 64 ∧
      pass ptrdiffLimits (fun n => some (thirdRound n)) 10000 =
        some { drift := 7, error := 500 } ∧
      pass ptrdiffLimits (fun n => some (thirdRound n)) 20000 =
        some { drift := 7, error := 500 } ∧
      pass ptrdiffLimits (fun n => some (thirdRound n)) 40000 =
        some { drift := 3, error := 20 } ∧
      measure (pass ptrdiffLimits (fun n => some (thirdRound n))) 3 =
        some { drift := 3, error := 20 } :=
  ⟨by decide, by decide, by decide, by decide,
    (measure_first_within_latency ptrdiffLimits (by decide)
      (fun n => some (thirdRound n))).1 2 { drift := 3, error := 20 }
      (by decide) (by decide)
      (by
        intro j hj
        interval_cases j
        · exact ⟨{ drift := 7, error := 500 }, by decide, by decide⟩
        · exact ⟨{ drift := 7, error := 500 }, by decide, by decide⟩)
      3 (by decide)⟩

/-! ## Rounds without a usable sample (C10) -/

theorem measureLoop_rejects (round : Nat → Option result) (fuel n : Nat) (r : result)
    (hr : round n = some r) (hbad : max_latency < r.error) :
    measureLoop round (fuel + 1) n = measureLoop round fuel (n * 2 % 2 ^ 64) := by
  simp only [measureLoop]
  rw [hr]
  simp only [Nat.not_le.mpr hbad, if_false]

theorem measureLoop_error_le (round : Nat → Option result) (fuel : Nat) :
    ∀ (n : Nat) (r : result), measureLoop round fuel n = some r →
      r.error ≤ max_latency := by
  induction fuel with
  | zero => intro n r h; simp [measureLoop] at h
  | succ f ih =>
    intro n r h
    simp only [measureLoop] at h
    cases hr0 : round n with
    | none => rw [hr0] at h; simp at h
    | some r0 =>
      rw [hr0] at h
      by_cases hgood : r0.error ≤ max_latency
      · simp only [hgood, if_true, Option.some.injEq] at h
        rw [← h]; exact hgood
      · simp only [hgood, if_false] at h
        exact ih _ r h

/-- C10: on a round whose test series is empty or holds only samples with
`seq1 = 0`, `analyze` performs no calibration lookup and returns drift `0` and
error `2 ^ 64 - 1`; that error is above `max_latency`, so a pass of `measure`
that produced such a round goes on to the next pass with the doubled sample
count, and no run of `measure` returns the result of such a round. -/
theorem analyze_no_usable_sample (c : calibrator) (h : ∀ e ∈ c.tests, e.seq1 = 0) :
    lookups c.tests = [] ∧
      analyze c = some { drift := 0, error := 2 ^ 64 - 1 } ∧
      max_latency < 2 ^ 64 - 1 ∧
      (∀ (round : Nat → Option result) (fuel n : Nat), round n = analyze c →
        measureLoop round (fuel + 1) n = measureLoop round fuel (n * 2 % 2 ^ 64)) ∧
      (∀ (round : Nat → Option result) (fuel : Nat), measure round fuel ≠ analyze c) := by
  have han : analyze c = some { drift := 0, error := 2 ^ 64 - 1 } := by
    unfold analyze
    rw [analyzeLoop_unusable c.calibration c.tests _ h]
    rfl
  have hmax : max_latency < 2 ^ 64 - 1 := by decide
  refine ⟨lookups_eq_nil c.tests h, han, hmax, ?_, ?_⟩
  · intro round fuel n hr
    rw [han] at hr
    exact measureLoop_rejects round fuel n _ hr hmax
  · intro round fuel heq
    rw [han] at heq
    have := measureLoop_error_le round fuel 10000 _ heq
    exact absurd this (Nat.not_le.mpr hmax)

/-- C10 at `earlyProbe`: both samples have `seq1 = 0`. -/
theorem analyze_no_usable_sample_earlyProbe :
    (∀ e ∈ earlyProbe.tests, e.seq1 = 0) ∧
      lookups earlyProbe.tests = [] ∧
      analyze earlyProbe = some { drift := 0, error := 2 ^ 64 - 1 } :=
  ⟨by decide,
    (analyze_no_usable_sample earlyProbe (by decide)).1,
    (analyze_no_usable_sample earlyProbe (by decide)).2.1⟩

/-! ## The exit condition of the PID loop (C5) -/

theorem abs64_band (P : Platform) (d : Int) :
    (abs64 P d < allowed_drift ∧ d ≥ 0) ↔ (0 ≤ d ∧ d < 100) := by
  unfold abs64 allowed_drift
  constructor
  · rintro ⟨h1, h2⟩
    have hne : d ≠ -2 ^ 63 := by omega
    rw [if_neg hne, abs_of_nonneg h2] at h1
    exact ⟨h2, h1⟩
  · rintro ⟨h1, h2⟩
    have hne : d ≠ -2 ^ 63 := by omega
    rw [if_neg hne, abs_of_nonneg h1]
    exact ⟨h2, h1⟩

theorem pidLoop_converged (P : Platform) {σ : Type} (env : Env σ) (cpu fuel : Nat)
    (sum : P.Double) (last : Int) (s : σ)
    (h : 0 ≤ (env.measure cpu s).1.drift ∧ (env.measure cpu s).1.drift < 100) :
    pidLoop P env cpu (fuel + 1) sum last s =
      { trace := [.measured cpu (env.measure cpu s).1], status := .finished,
        state := (env.measure cpu s).2 } := by
  simp only [pidLoop]
  rw [if_pos ((abs64_band P _).mpr h)]

theorem pidLoop_sink_failed (P : Platform) {σ : Type} (env : Env σ) (cpu fuel : Nat)
    (sum : P.Double) (last : Int) (s : σ)
    (h : ¬ (0 ≤ (env.measure cpu s).1.drift ∧ (env.measure cpu s).1.drift < 100))
    (hs : env.adjust_tsc cpu (pidDelta P sum last (env.measure cpu s).1.drift)
      (env.measure cpu s).2 = none) :
    pidLoop P env cpu (fuel + 1) sum last s =
      { trace := [.measured cpu (env.measure cpu s).1,
          .command cpu (pidDelta P sum last (env.measure cpu s).1.drift),
          .sinkUnreachable],
        status := .exited, state := (env.measure cpu s).2 } := by
  simp only [pidLoop]
  rw [if_neg (fun hb => h ((abs64_band P _).mp hb))]
  unfold pidDelta at hs
  simp only [hs]
  rfl

theorem pidLoop_corrected (P : Platform) {σ : Type} (env : Env σ) (cpu fuel : Nat)
    (sum : P.Double) (last : Int) (s s2 : σ)
    (h : ¬ (0 ≤ (env.measure cpu s).1.drift ∧ (env.measure cpu s).1.drift < 100))
    (hs : env.adjust_tsc cpu (pidDelta P sum last (env.measure cpu s).1.drift)
      (env.measure cpu s).2 = some s2) :
    pidLoop P env cpu (fuel + 1) sum last s =
      (pidLoop P env cpu fuel (P.add sum (P.ofInt64 (env.measure cpu s).1.drift))
        (env.measure cpu s).1.drift s2).after
        [.measured cpu (env.measure cpu s).1,
          .command cpu (pidDelta P sum last (env.measure cpu s).1.drift)] := by
  simp only [pidLoop]
  rw [if_neg (fun hb => h ((abs64_band P _).mp hb))]
  unfold pidDelta at hs
  simp only [hs]
  rfl

theorem pidLoop_head (P : Platform) {σ : Type} (env : Env σ) (cpu fuel : Nat)
    (sum : P.Double) (last : Int) (s : σ) :
    ∃ rest, (pidLoop P env cpu (fuel + 1) sum last s).trace =
      .measured cpu (env.measure cpu s).1 :: rest := by
  by_cases h : 0 ≤ (env.measure cpu s).1.drift ∧ (env.measure cpu s).1.drift < 100
  · rw [pidLoop_converged P env cpu fuel sum last s h]
    exact ⟨[], rfl⟩
  · cases hs : env.adjust_tsc cpu (pidDelta P sum last (env.measure cpu s).1.drift)
        (env.measure cpu s).2 with
    | none =>
      rw [pidLoop_sink_failed P env cpu fuel sum last s h hs]
      exact ⟨_, rfl⟩
    | some s2 =>
      rw [pidLoop_corrected P env cpu fuel sum last s s2 h hs]
      exact ⟨_, rfl⟩

/-- C5 as stated fails: with `deadSink` the measured drift `100` is outside
`[0, 100)` and one correction command is issued, but the sink cannot be
opened, so the process exits and no further measurement is made, however many
iterations the loop is allowed. -/
theorem pidLoop_deadSink :
    ¬ ((0 : Int) ≤ 100 ∧ (100 : Int) < 100) ∧
      ∃ delta, pidLoop exactArith deadSink 1 5 (exactArith.lit 0) 0 () =
        { trace := [.measured 1 { drift := 100, error := 0 }, .command 1 delta,
            .sinkUnreachable],
          status := .exited, state := () } :=
  ⟨by decide, _, pidLoop_sink_failed exactArith deadSink 1 4 _ 0 () (by decide) rfl⟩

/-- C5 (amended): for every measured drift `d`, whatever `std::abs` yields on
the most negative value, an iteration of the correction loop leaves through
`break` (Converged) if and only if `0 ≤ d < 100`. For every other `d` it
issues exactly one correction command; if the sink cannot be opened the
process exits there, otherwise the loop goes around and measures again. -/
theorem pidLoop_exit_condition (P : Platform) {σ : Type} (env : Env σ) (cpu fuel : Nat)
    (sum : P.Double) (last : Int) (s : σ) :
    (pidLoop P env cpu (fuel + 1) sum last s =
        { trace := [.measured cpu (env.measure cpu s).1], status := .finished,
          state := (env.measure cpu s).2 } ↔
      (0 ≤ (env.measure cpu s).1.drift ∧ (env.measure cpu s).1.drift < 100)) ∧
    (¬ (0 ≤ (env.measure cpu s).1.drift ∧ (env.measure cpu s).1.drift < 100) →
      ∃ delta,
        (env.adjust_tsc cpu delta (env.measure cpu s).2 = none →
          pidLoop P env cpu (fuel + 1) sum last s =
            { trace := [.measured cpu (env.measure cpu s).1, .command cpu delta,
                .sinkUnreachable],
              status := .exited, state := (env.measure cpu s).2 }) ∧
        (∀ s2, env.adjust_tsc cpu delta (env.measure cpu s).2 = some s2 →
          ∃ rest, (pidLoop P env cpu (fuel + 2) sum last s).trace =
            .measured cpu (env.measure cpu s).1 :: .command cpu delta ::
              .measured cpu (env.measure cpu s2).1 :: rest)) := by
  constructor
  · constructor
    · intro heq
      by_contra h
      cases hs : env.adjust_tsc cpu (pidDelta P sum last (env.measure cpu s).1.drift)
          (env.measure cpu s).2 with
      | none =>
        rw [pidLoop_sink_failed P env cpu fuel sum last s h hs] at heq
        simp at heq
      | some s2 =>
        rw [pidLoop_corrected P env cpu fuel sum last s s2 h hs] at heq
        have := congrArg (fun r => r.trace.length) heq
        simp [Run.after] at this
    · exact pidLoop_converged P env cpu fuel sum last s
  · intro h
    refine ⟨pidDelta P sum last (env.measure cpu s).1.drift, ?_, ?_⟩
    · exact pidLoop_sink_failed P env cpu fuel sum last s h
    · intro s2 hs
      rw [pidLoop_corrected P env cpu (fuel + 1) sum last s s2 h hs]
      obtain ⟨rest, hrest⟩ := pidLoop_head P env cpu fuel
        (P.add sum (P.ofInt64 (env.measure cpu s).1.drift)) (env.measure cpu s).1.drift s2
      exact ⟨rest, by simp [Run.after, hrest]⟩

/-- The amended C5 at `minDrift`, where every measured drift is the most
negative `int64_t`: the iteration does not leave through `break`; it issues
one command and measures again. -/
theorem pidLoop_exit_condition_minDrift :
    pidLoop exactArith minDrift 1 1 (exactArith.lit 0) 0 () ≠
        { trace := [.measured 1 { drift := -2 ^ 63, error := 0 }], status := .finished,
          state := () } ∧
      ∃ delta rest, (pidLoop exactArith minDrift 1 2 (exactArith.lit 0) 0 ()).trace =
        .measured 1 { drift := -2 ^ 63, error := 0 } :: .command 1 delta ::
          .measured 1 { drift := -2 ^ 63, error := 0 } :: rest := by
  have h := pidLoop_exit_condition exactArith minDrift 1 0 (exactArith.lit 0) 0 ()
  have hband : ¬ (0 ≤ (minDrift.measure 1 ()).1.drift ∧ (minDrift.measure 1 ()).1.drift < 100) := by
    decide
  refine ⟨fun heq => hband (h.1.mp heq), ?_⟩
  obtain ⟨delta, _, hgo⟩ := h.2 hband
  obtain ⟨rest, hrest⟩ := hgo () rfl
  exact ⟨delta, rest, hrest⟩

/-! ## Read-only mode and fix mode (C6) -/

theorem readOnlyEvents_cons (cpu : Nat) (cpus : List Nat) (r : result)
    (results : List result) :
    readOnlyEvents (cpu :: cpus) (r :: results) =
      Event.measured cpu r :: Event.report cpu r.drift r.error ::
        readOnlyEvents cpus results := by
  simp [readOnlyEvents]

theorem session_read_only (P : Platform) {σ : Type} (env : Env σ) (cpu fuel : Nat)
    (s : σ) :
    session P env false cpu fuel s =
      { trace := [.measured cpu (env.measure cpu s).1,
          .report cpu (env.measure cpu s).1.drift (env.measure cpu s).1.error],
        status := .finished, state := (env.measure cpu s).2 } := by
  simp [session]

theorem mainLoop_read_only (P : Platform) {σ : Type} (env : Env σ) (fuel : Nat)
    (cpus : List Nat) :
    ∀ s : σ, mainLoop P env false fuel cpus s =
      { trace := readOnlyEvents cpus (measurements env cpus s), status := .finished,
        state := stateAfter env cpus s } := by
  induction cpus with
  | nil => intro s; rfl
  | cons cpu cpus ih =>
    intro s
    have h := ih (env.measure cpu s).2
    simp only [measurements, stateAfter, readOnlyEvents_cons]
    simp only [mainLoop, session_read_only, Run.after]
    rw [h]
    rfl

theorem measurements_length {σ : Type} (env : Env σ) (cpus : List Nat) :
    ∀ s : σ, (measurements env cpus s).length = cpus.length := by
  induction cpus with
  | nil => intro s; rfl
  | cons cpu cpus ih => intro s; simp [measurements, ih]

theorem readOnlyEvents_spec (cpus : List Nat) :
    ∀ results : List result, results.length = cpus.length →
      (∀ e ∈ readOnlyEvents cpus results, e.isCommand = false) ∧
      (readOnlyEvents cpus results).filterMap Event.text =
        List.zipWith reportLine cpus results ∧
      (readOnlyEvents cpus results).filterMap
        (fun e => match e with
          | .measured cpu _ => some cpu
          | _ => none) = cpus := by
  induction cpus with
  | nil => intro results _; simp [readOnlyEvents]
  | cons cpu cpus ih =>
    intro results hlen
    cases results with
    | nil => simp at hlen
    | cons r results =>
      obtain ⟨h1, h2, h3⟩ := ih results (by simpa using hlen)
      rw [readOnlyEvents_cons]
      refine ⟨?_, ?_, ?_⟩
      · intro e he
        simp only [List.mem_cons] at he
        rcases he with rfl | rfl | he
        · rfl
        · rfl
        · exact h1 e he
      · simp [Event.text, reportLine, h2]
      · simp [h3]

theorem pidLoop_no_report (P : Platform) {σ : Type} (env : Env σ) (cpu fuel : Nat) :
    ∀ (sum : P.Double) (last : Int) (s : σ),
      ∀ e ∈ (pidLoop P env cpu fuel sum last s).trace, e.isReport = false := by
  induction fuel with
  | zero => intro sum last s e he; simp [pidLoop] at he
  | succ f ih =>
    intro sum last s e he
    by_cases h : 0 ≤ (env.measure cpu s).1.drift ∧ (env.measure cpu s).1.drift < 100
    · rw [pidLoop_converged P env cpu f sum last s h] at he
      simp at he
      rw [he]; rfl
    · cases hs : env.adjust_tsc cpu (pidDelta P sum last (env.measure cpu s).1.drift)
          (env.measure cpu s).2 with
      | none =>
        rw [pidLoop_sink_failed P env cpu f sum last s h hs] at he
        simp at he
        rcases he with rfl | rfl | rfl <;> rfl
      | some s2 =>
        rw [pidLoop_corrected P env cpu f sum last s s2 h hs] at he
        simp only [Run.after, List.mem_append, List.mem_cons, List.mem_singleton,
          List.not_mem_nil, or_false] at he
        rcases he with (rfl | rfl) | he
        · rfl
        · rfl
        · exact ih _ _ _ e he

theorem session_fix_no_report (P : Platform) {σ : Type} (env : Env σ) (cpu fuel : Nat)
    (s : σ) : ∀ e ∈ (session P env true cpu fuel s).trace, e.isReport = false := by
  intro e he
  unfold session at he
  simp only [if_true] at he
  cases hs : env.adjust_tsc cpu (wrapInt64 (-(env.measure cpu s).1.drift))
      (env.measure cpu s).2 with
  | none =>
    simp only [hs] at he
    simp at he
    rcases he with rfl | rfl | rfl <;> rfl
  | some s2 =>
    simp only [hs, Run.after, List.mem_append, List.mem_cons, List.mem_singleton,
      List.not_mem_nil, or_false] at he
    rcases he with (rfl | rfl) | he
    · rfl
    · rfl
    · exact pidLoop_no_report P env cpu fuel _ _ _ e he

theorem mainLoop_fix_no_report (P : Platform) {σ : Type} (env : Env σ) (fuel : Nat)
    (cpus : List Nat) :
    ∀ s : σ, ∀ e ∈ (mainLoop P env true fuel cpus s).trace, e.isReport = false := by
  induction cpus with
  | nil => intro s e he; simp [mainLoop] at he
  | cons cpu cpus ih =>
    intro s e he
    simp only [mainLoop] at he
    cases hst : (session P env true cpu fuel s).status with
    | finished =>
      simp only [hst, Run.after, List.mem_append] at he
      rcases he with he | he
      · exact session_fix_no_report P env cpu fuel s e he
      · exact ih _ e he
    | exited =>
      simp only [hst] at he
      exact session_fix_no_report P env cpu fuel s e he
    | running =>
      simp only [hst] at he
      exact session_fix_no_report P env cpu fuel s e he

/-- C6: without the fix flag, `main` makes exactly one measurement per target
core, for the cores `1 .. N - 1` in increasing order, each from the state the
previous one left; it calls `adjust_tsc` not once, so that the state it ends
in is the one those measurements alone produce; and it prints exactly one
line `cpu <id> drift <drift> error <error>` per core, carrying the drift and
error of that core's measurement. With the fix flag it prints no such line,
however long it runs. -/
theorem main_read_only_and_fix (P : Platform) {σ : Type} (env : Env σ)
    (hardware_concurrency fuel : Nat) (s : σ) :
    main P env false hardware_concurrency fuel s =
      { trace := readOnlyEvents (List.range' 1 (hardware_concurrency - 1))
          (measurements env (List.range' 1 (hardware_concurrency - 1)) s),
        status := .finished,
        state := stateAfter env (List.range' 1 (hardware_concurrency - 1)) s } ∧
    (measurements env (List.range' 1 (hardware_concurrency - 1)) s).length =
      hardware_concurrency - 1 ∧
    (∀ e ∈ (main P env false hardware_concurrency fuel s).trace, e.isCommand = false) ∧
    (main P env false hardware_concurrency fuel s).trace.filterMap Event.text =
      List.zipWith reportLine (List.range' 1 (hardware_concurrency - 1))
        (measurements env (List.range' 1 (hardware_concurrency - 1)) s) ∧
    (main P env false hardware_concurrency fuel s).trace.filterMap
      (fun e => match e with
        | .measured cpu _ => some cpu
        | _ => none) = List.range' 1 (hardware_concurrency - 1) ∧
    (∀ e ∈ (main P env true hardware_concurrency fuel s).trace, e.isReport = false) := by
  have hrun := mainLoop_read_only P env fuel (List.range' 1 (hardware_concurrency - 1)) s
  have hlen := measurements_length env (List.range' 1 (hardware_concurrency - 1)) s
  obtain ⟨h1, h2, h3⟩ := readOnlyEvents_spec _ _ hlen
  have htr : (main P env false hardware_concurrency fuel s).trace =
      readOnlyEvents (List.range' 1 (hardware_concurrency - 1))
        (measurements env (List.range' 1 (hardware_concurrency - 1)) s) := by
    unfold main; rw [hrun]
  refine ⟨hrun, ?_, ?_, ?_, ?_, ?_⟩
  · rw [hlen, List.length_range']
  · rw [htr]; exact h1
  · rw [htr]; exact h2
  · rw [htr]; exact h3
  · exact mainLoop_fix_no_report P env fuel _ s

/-- C6 at `countingCores` with three cores, started in state `0`: read-only
mode measures core `1` in state `0` and core `2` in state `1`, prints the two
lines `cpu 1 drift 10 error 12` and `cpu 2 drift 21 error 12`, and ends in
state `2`, which no command to the sink has touched. -/
theorem main_read_only_countingCores :
    measurements countingCores (List.range' 1 (3 - 1)) 0 =
        [{ drift := 10, error := 12 }, { drift := 21, error := 12 }] ∧
      stateAfter countingCores (List.range' 1 (3 - 1)) 0 = 2 ∧
      (main exactArith countingCores false 3 0 0).trace =
        [.measured 1 { drift := 10, error := 12 }, .report 1 10 12,
          .measured 2 { drift := 21, error := 12 }, .report 2 21 12] ∧
      (main exactArith countingCores false 3 0 0).state = 2 ∧
      (main exactArith countingCores false 3 0 0).trace.filterMap Event.text =
        ["cpu 1 drift 10 error 12\n", "cpu 2 drift 21 error 12\n"] ∧
      main exactArith countingCores false 3 0 0 =
        { trace := readOnlyEvents (List.range' 1 (3 - 1))
            (measurements countingCores (List.range' 1 (3 - 1)) 0),
          status := .finished,
          state := stateAfter countingCores (List.range' 1 (3 - 1)) 0 } ∧
      (∀ e ∈ (main exactArith countingCores true 3 9 0).trace, e.isReport = false) :=
  ⟨by decide, by decide, by decide, by decide, by decide,
    (main_read_only_and_fix exactArith countingCores 3 0 0).1,
    (main_read_only_and_fix exactArith countingCores 3 9 0).2.2.2.2.2⟩

/-! ## Convergence against the simulated target (C7) -/

theorem wrapInt64_of_range (x : Int) (h1 : -2 ^ 63 ≤ x) (h2 : x < 2 ^ 63) :
    wrapInt64 x = x := by
  unfold wrapInt64; omega

/-- C7: against the simulated target, whose measurements are
`true_drift - applied_correction` without noise, the fix-mode session of a
core with `true_drift` in `[-10000, 10000]` sends the immediate correction
`-true_drift`, measures drift `0`, which lies in `[0, 100)`, in the first
iteration of the PID loop and stops there: two measurements and one command
in all, whenever at least one loop iteration is allowed. -/
theorem session_simTarget_converges (P : Platform) (true_drift : Int)
    (hlo : -10000 ≤ true_drift) (hhi : true_drift ≤ 10000) (cpu fuel : Nat)
    (hfuel : 1 ≤ fuel) :
    session P (simTarget true_drift) true cpu fuel 0 =
      { trace := [.measured cpu { drift := true_drift, error := 0 },
          .command cpu (-true_drift),
          .measured cpu { drift := 0, error := 0 }],
        status := .finished, state := true_drift } := by
  obtain ⟨f, rfl⟩ : ∃ f, fuel = f + 1 := ⟨fuel - 1, by omega⟩
  have hw : wrapInt64 (-(true_drift - 0)) = -true_drift := by
    rw [sub_zero]
    exact wrapInt64_of_range _ (by omega) (by omega)
  have hloop : pidLoop P (simTarget true_drift) cpu (f + 1) (P.lit 0) 0 true_drift =
      { trace := [.measured cpu { drift := 0, error := 0 }], status := .finished,
        state := true_drift } := by
    have h := pidLoop_converged P (simTarget true_drift) cpu f (P.lit 0) 0 true_drift
      (by simp [simTarget])
    simpa [simTarget] using h
  unfold session
  simp only [if_true]
  simp only [simTarget] at hw hloop ⊢
  rw [hw]
  simp only [sub_neg_eq_add, zero_add]
  rw [hloop]
  simp [Run.after]

/-- C7 at `true_drift = -10000`, the lower end of the range, on core `1`
with up to four loop iterations allowed. -/
theorem session_simTarget_converges_low :
    (-10000 : Int) ≤ -10000 ∧ (-10000 : Int) ≤ 10000 ∧ 1 ≤ 4 ∧
      session exactArith (simTarget (-10000)) true 1 4 0 =
        { trace := [.measured 1 { drift := -10000, error := 0 },
            .command 1 (-(-10000)),
            .measured 1 { drift := 0, error := 0 }],
          status := .finished, state := -10000 } :=
  ⟨by decide, by decide, by decide,
    session_simTarget_converges exactArith (-10000) (by decide) (by decide) 1 4 (by decide)⟩

end Tscfix
